import Mathlib

/-!
# Verification of the hypergeometric probability core of deck-helper

Shallow embedding of `src/script.js`.  The JavaScript code works with IEEE
doubles; the numerically interesting part (`binomialCoefficient`) computes
`Math.round(Math.exp(logFactorial(n) - logFactorial(k) - logFactorial(n-k)))`,
which in exact real arithmetic is exactly the binomial coefficient `C(n, k)`
(the lemma `round_exp_logFactorial` below proves this for the idealized
real-valued computation).  Accordingly the embedding uses exact rational
arithmetic: `binomialCoefficient` returns the exact coefficient in the branch
the source computes via logarithms, and all downstream functions
(`hypergeometric`, the summary statistics of `calculateAll`, the chart data of
`renderChart`) are translated branch-for-branch from the source.
-/

namespace DeckHelper

/-- `logFactorial(n)` from src/script.js: `n <= 1` gives `0`, otherwise the
sum of `Math.log(i)` for `i = 2 .. n`.  Idealized over the reals. -/
noncomputable def logFactorial (n : ℕ) : ℝ :=
  ∑ i ∈ Finset.Icc 2 n, Real.log i

/-- `binomialCoefficient(n, k)` from src/script.js.  The source returns `0`
when `k < 0 || k > n`, returns `1` when `k === 0 || k === n`, and otherwise
computes `Math.round(Math.exp(logFactorial(n) - logFactorial(k) -
logFactorial(n - k)))`, which in exact arithmetic is the integer `C(n, k)`
(see `round_exp_logFactorial`). -/
def binomialCoefficient (n k : ℤ) : ℚ :=
  if k < 0 ∨ k > n then 0
  else if k = 0 ∨ k = n then 1
  else (n.toNat.choose k.toNat : ℚ)

/-- `hypergeometric(N, K, n, k)` from src/script.js: the support check
returns `0`, otherwise `numerator / denominator` with an explicit guard
returning `0` for a zero denominator. -/
def hypergeometric (N K n k : ℤ) : ℚ :=
  if k < 0 ∨ k > min K n ∨ k < max 0 (n - (N - K)) then 0
  else
    let numerator := binomialCoefficient K k * binomialCoefficient (N - K) (n - k)
    let denominator := binomialCoefficient N n
    if denominator = 0 then 0 else numerator / denominator

/-- The five derived statistics computed inside `calculateAll`
(src/script.js lines 161-170). -/
structure SummaryStats where
  whiff : ℚ
  exactlyOne : ℚ
  atLeastOne : ℚ
  twoOrMore : ℚ
  whiffTwice : ℚ
  deriving DecidableEq, Repr

/-- The probability computations of `calculateAll` after validation passes:
`pWhiff = hypergeometric(N, targets, sampleSize, 0)`,
`pExactlyOne = hypergeometric(N, targets, sampleSize, 1)`,
`pAtLeastOne = 1 - pWhiff`, `pTwoOrMore = 1 - pWhiff - pExactlyOne`,
`pWhiffTwice = pWhiff * pWhiff`. -/
def computeSummaryStatistics (N targets sampleSize : ℤ) : SummaryStats :=
  let pWhiff := hypergeometric N targets sampleSize 0
  let pExactlyOne := hypergeometric N targets sampleSize 1
  let pAtLeastOne := 1 - pWhiff
  let pTwoOrMore := 1 - pWhiff - pExactlyOne
  let pWhiffTwice := pWhiff * pWhiff
  ⟨pWhiff, pExactlyOne, pAtLeastOne, pTwoOrMore, pWhiffTwice⟩

/-- The probability/maximum computation of `renderChart` (src/script.js lines
74-83): `maxK = Math.min(K, n)`; the loop `for (k = 0; k <= maxK; k++)`
pushes `hypergeometric(N, K, n, k)` and updates `maxProb` when `p > maxProb`,
starting from `probabilities = []`, `maxProb = 0`.  The loop body runs for
`k = 0 .. maxK`, i.e. `(min K n + 1).toNat` times. -/
def computeDistribution (N K n : ℤ) : List ℚ × ℚ :=
  (List.range ((min K n + 1).toNat)).foldl
    (fun acc (k : ℕ) =>
      let p := hypergeometric N K n (k : ℤ)
      (acc.1 ++ [p], if p > acc.2 then p else acc.2))
    ([], 0)

/-- The validation of `calculateAll` (src/script.js lines 137-143): the error
messages accumulated for the input `(deckSize, turn, sampleSize, targets)`,
with `N = deckSize - turn*2` the effective deck size. -/
def validationErrors (deckSize turn sampleSize targets : ℤ) : List String :=
  let N := deckSize - turn * 2
  (if deckSize < 1 then ["Deck size must be at least 1"] else []) ++
  (if N < 1 then ["Deck size minus turn must be at least 1"] else []) ++
  (if sampleSize > N then ["Sample size cannot exceed remaining deck"] else []) ++
  (if targets > deckSize then ["Targets cannot exceed deck size"] else []) ++
  (if targets > N then ["Targets cannot exceed remaining deck"] else [])

/-- `calculateAll` (src/script.js lines 123-181), DOM writes abstracted away:
computes `N = deckSize - turn*2`, and when any validation error fires it
clears the results and returns without touching the probability functions
(modelled as `none`); otherwise it produces the five summary statistics and
the chart data for `(N, targets, sampleSize)`. -/
def calculateAll (deckSize turn sampleSize targets : ℤ) :
    Option (SummaryStats × (List ℚ × ℚ)) :=
  let N := deckSize - turn * 2
  if validationErrors deckSize turn sampleSize targets = [] then
    some (computeSummaryStatistics N targets sampleSize,
          computeDistribution N targets sampleSize)
  else none

/-! ## Bridge lemmas -/

/-- On natural-number inputs, `binomialCoefficient` computes the exact
binomial coefficient (extended by zero outside `0 ≤ k ≤ n`). -/
lemma binomialCoefficient_natCast (n k : ℕ) :
    binomialCoefficient (n : ℤ) (k : ℤ) = (n.choose k : ℚ) := by
  unfold binomialCoefficient
  rcases lt_or_le n k with h | h
  · rw [if_pos (Or.inr (by exact_mod_cast h)), Nat.choose_eq_zero_of_lt h]
    simp
  · rw [if_neg (by push_neg; exact ⟨by positivity, by exact_mod_cast h⟩)]
    by_cases h0 : k = 0
    · subst h0; simp
    · by_cases hn : k = n
      · subst hn; simp
      · have hne : ¬((k : ℤ) = 0 ∨ (k : ℤ) = (n : ℤ)) := by
          push_neg
          exact ⟨by exact_mod_cast h0, by exact_mod_cast hn⟩
        rw [if_neg hne]
        simp [Int.toNat_natCast]

lemma binomialCoefficient_nonneg (n k : ℤ) : 0 ≤ binomialCoefficient n k := by
  unfold binomialCoefficient
  split_ifs <;> positivity

/-- Vandermonde's identity in range form. -/
lemma vandermonde_range (K M n : ℕ) :
    (K + M).choose n = ∑ k ∈ Finset.range (n + 1), K.choose k * M.choose (n - k) := by
  rw [Nat.add_choose_eq, Finset.Nat.sum_antidiagonal_eq_sum_range_succ_mk]

/-- On natural-number inputs with `K ≤ N`, `n ≤ N`, `k ≤ n`, the embedded
`hypergeometric` equals the textbook formula over exact rationals. -/
lemma hypergeometric_natCast (N K n k : ℕ) (hK : K ≤ N) (hn : n ≤ N) (hk : k ≤ n) :
    hypergeometric (N : ℤ) (K : ℤ) (n : ℤ) (k : ℤ) =
      (K.choose k * (N - K).choose (n - k) : ℚ) / (N.choose n) := by
  have hNK : ((N : ℤ) - (K : ℤ)) = ((N - K : ℕ) : ℤ) := by
    rw [Nat.cast_sub hK]
  have hnk : ((n : ℤ) - (k : ℤ)) = ((n - k : ℕ) : ℤ) := by
    rw [Nat.cast_sub hk]
  have hden : binomialCoefficient (N : ℤ) (n : ℤ) = (N.choose n : ℚ) :=
    binomialCoefficient_natCast N n
  have hdpos : (0 : ℚ) < (N.choose n : ℚ) := by
    exact_mod_cast Nat.choose_pos hn
  unfold hypergeometric
  by_cases hsupp : (k : ℤ) < 0 ∨ (k : ℤ) > min (K : ℤ) (n : ℤ) ∨
      (k : ℤ) < max 0 ((n : ℤ) - ((N : ℤ) - (K : ℤ)))
  · rw [if_pos hsupp]
    rcases hsupp with h1 | h2 | h3
    · exact absurd h1 (Int.natCast_nonneg k).not_lt
    · have hKk : K < k := by
        have hmin : min (K : ℤ) (n : ℤ) = ((min K n : ℕ) : ℤ) := by
          simp [Nat.cast_min]
        rw [hmin] at h2
        have : min K n < k := by exact_mod_cast h2
        omega
      rw [Nat.choose_eq_zero_of_lt hKk]
      simp
    · have hfail : (N : ℤ) - (K : ℤ) < (n : ℤ) - (k : ℤ) := by
        have hk0 : (0 : ℤ) ≤ (k : ℤ) := by positivity
        have := lt_max_iff.mp h3
        rcases this with h | h
        · omega
        · omega
      have : N - K < n - k := by
        rw [hNK, hnk] at hfail
        exact_mod_cast hfail
      rw [Nat.choose_eq_zero_of_lt this]
      simp
  · rw [if_neg hsupp]
    simp only [hden, hNK, hnk, binomialCoefficient_natCast]
    rw [if_neg (by exact_mod_cast hdpos.ne')]

lemma hypergeometric_nonneg (N K n k : ℤ) : 0 ≤ hypergeometric N K n k := by
  unfold hypergeometric
  dsimp only
  split_ifs
  · exact le_refl 0
  · exact le_refl 0
  · exact div_nonneg
      (mul_nonneg (binomialCoefficient_nonneg _ _) (binomialCoefficient_nonneg _ _))
      (binomialCoefficient_nonneg _ _)

/-- When the support check of `hypergeometric` passes, all the standard
hypergeometric parameter bounds follow. -/
lemma support_bounds {N K n k : ℤ}
    (h : ¬(k < 0 ∨ k > min K n ∨ k < max 0 (n - (N - K)))) :
    0 ≤ k ∧ k ≤ K ∧ k ≤ n ∧ n - k ≤ N - K ∧ 0 ≤ n ∧ n ≤ N ∧ 0 ≤ K ∧ K ≤ N := by
  push_neg at h
  obtain ⟨h0, h1, h2⟩ := h
  have hkK : k ≤ K := le_trans h1 (min_le_left _ _)
  have hkn : k ≤ n := le_trans h1 (min_le_right _ _)
  have h3 : n - (N - K) ≤ k := le_trans (le_max_right _ _) h2
  omega

lemma hypergeometric_le_one (N K n k : ℤ) : hypergeometric N K n k ≤ 1 := by
  by_cases hs : k < 0 ∨ k > min K n ∨ k < max 0 (n - (N - K))
  · unfold hypergeometric
    rw [if_pos hs]
    exact zero_le_one
  · obtain ⟨hk0, hkK, hkn, hnk, hn0, hnN, hK0, hKN⟩ := support_bounds hs
    obtain ⟨N1, rfl⟩ := Int.eq_ofNat_of_zero_le (le_trans hK0 hKN)
    obtain ⟨K1, rfl⟩ := Int.eq_ofNat_of_zero_le hK0
    obtain ⟨n1, rfl⟩ := Int.eq_ofNat_of_zero_le hn0
    obtain ⟨k1, rfl⟩ := Int.eq_ofNat_of_zero_le hk0
    have hK1N : K1 ≤ N1 := by exact_mod_cast hKN
    have hn1N : n1 ≤ N1 := by exact_mod_cast hnN
    have hk1n : k1 ≤ n1 := by exact_mod_cast hkn
    rw [hypergeometric_natCast N1 K1 n1 k1 hK1N hn1N hk1n]
    have hdpos : (0 : ℚ) < (N1.choose n1 : ℚ) := by exact_mod_cast Nat.choose_pos hn1N
    rw [div_le_one hdpos]
    have hterm : K1.choose k1 * (N1 - K1).choose (n1 - k1) ≤ N1.choose n1 := by
      have hv := vandermonde_range K1 (N1 - K1) n1
      have hKNK : K1 + (N1 - K1) = N1 := by omega
      rw [hKNK] at hv
      have hmem : k1 ∈ Finset.range (n1 + 1) := Finset.mem_range.mpr (by omega)
      calc K1.choose k1 * (N1 - K1).choose (n1 - k1)
          ≤ ∑ j ∈ Finset.range (n1 + 1), K1.choose j * (N1 - K1).choose (n1 - j) :=
            Finset.single_le_sum
              (fun i _ => Nat.zero_le (K1.choose i * (N1 - K1).choose (n1 - i))) hmem
        _ = N1.choose n1 := hv.symm
    exact_mod_cast hterm

/-- The embedded PMF sums to exactly `1` over `k = 0 .. min K n` for valid
natural-number parameters. -/
lemma sum_hypergeometric_nat (N K n : ℕ) (hK : K ≤ N) (hn : n ≤ N) :
    ∑ k ∈ Finset.range (min K n + 1),
      hypergeometric (N : ℤ) (K : ℤ) (n : ℤ) (k : ℤ) = 1 := by
  have hdpos : (0 : ℚ) < (N.choose n : ℚ) := by exact_mod_cast Nat.choose_pos hn
  have step : ∀ j ∈ Finset.range (min K n + 1),
      hypergeometric (N : ℤ) (K : ℤ) (n : ℤ) (j : ℤ)
        = (K.choose j * (N - K).choose (n - j) : ℚ) / (N.choose n) := by
    intro j hj
    have hjn : j ≤ n := by
      have := Finset.mem_range.mp hj
      omega
    exact hypergeometric_natCast N K n j hK hn hjn
  rw [Finset.sum_congr rfl step, ← Finset.sum_div]
  have hsub : Finset.range (min K n + 1) ⊆ Finset.range (n + 1) :=
    Finset.range_subset.mpr (by omega)
  have hzero : ∀ j ∈ Finset.range (n + 1), j ∉ Finset.range (min K n + 1) →
      (K.choose j * (N - K).choose (n - j) : ℚ) = 0 := by
    intro j hj1 hj2
    have h1 := Finset.mem_range.mp hj1
    have h2 : min K n + 1 ≤ j := by
      by_contra hcon
      exact hj2 (Finset.mem_range.mpr (by omega))
    have hKj : K < j := by omega
    rw [Nat.choose_eq_zero_of_lt hKj]
    simp
  rw [Finset.sum_subset hsub hzero]
  have hv : (∑ j ∈ Finset.range (n + 1),
      (K.choose j * (N - K).choose (n - j) : ℚ)) = (N.choose n : ℚ) := by
    have h2 := vandermonde_range K (N - K) n
    have h3 : K + (N - K) = N := by omega
    rw [h3] at h2
    exact_mod_cast h2.symm
  rw [hv, div_self hdpos.ne']

/-- `P(X = 0) + P(X = 1) ≤ 1` for arbitrary integer parameters. -/
lemma hyp_zero_add_hyp_one_le_one (N K n : ℤ) :
    hypergeometric N K n 0 + hypergeometric N K n 1 ≤ 1 := by
  by_cases hs0 : (0 : ℤ) < 0 ∨ (0 : ℤ) > min K n ∨ (0 : ℤ) < max 0 (n - (N - K))
  · have h0 : hypergeometric N K n 0 = 0 := by
      unfold hypergeometric
      rw [if_pos hs0]
    rw [h0, zero_add]
    exact hypergeometric_le_one N K n 1
  · by_cases hs1 : (1 : ℤ) < 0 ∨ (1 : ℤ) > min K n ∨ (1 : ℤ) < max 0 (n - (N - K))
    · have h1 : hypergeometric N K n 1 = 0 := by
        unfold hypergeometric
        rw [if_pos hs1]
      rw [h1, add_zero]
      exact hypergeometric_le_one N K n 0
    · obtain ⟨-, -, -, -, hn0, hnN, hK0, hKN⟩ := support_bounds hs0
      obtain ⟨-, h1K, h1n, -, -, -, -, -⟩ := support_bounds hs1
      obtain ⟨N1, rfl⟩ := Int.eq_ofNat_of_zero_le (le_trans hK0 hKN)
      obtain ⟨K1, rfl⟩ := Int.eq_ofNat_of_zero_le hK0
      obtain ⟨n1, rfl⟩ := Int.eq_ofNat_of_zero_le hn0
      have hK1N : K1 ≤ N1 := by exact_mod_cast hKN
      have hn1N : n1 ≤ N1 := by exact_mod_cast hnN
      have h1n1 : 1 ≤ n1 := by exact_mod_cast h1n
      have e0 := hypergeometric_natCast N1 K1 n1 0 hK1N hn1N (Nat.zero_le n1)
      have e1 := hypergeometric_natCast N1 K1 n1 1 hK1N hn1N h1n1
      simp only [Nat.cast_zero, Nat.cast_one] at e0 e1
      have hdpos : (0 : ℚ) < (N1.choose n1 : ℚ) := by
        exact_mod_cast Nat.choose_pos hn1N
      rw [e0, e1, div_add_div_same, div_le_one hdpos]
      have hterm : K1.choose 0 * (N1 - K1).choose (n1 - 0)
          + K1.choose 1 * (N1 - K1).choose (n1 - 1) ≤ N1.choose n1 := by
        have hv := vandermonde_range K1 (N1 - K1) n1
        have hKNK : K1 + (N1 - K1) = N1 := by omega
        rw [hKNK] at hv
        rw [hv]
        have hpair : ({0, 1} : Finset ℕ) ⊆ Finset.range (n1 + 1) := by
          rw [Finset.insert_subset_iff, Finset.singleton_subset_iff]
          exact ⟨Finset.mem_range.mpr (by omega), Finset.mem_range.mpr (by omega)⟩
        calc K1.choose 0 * (N1 - K1).choose (n1 - 0)
              + K1.choose 1 * (N1 - K1).choose (n1 - 1)
            = ∑ j ∈ ({0, 1} : Finset ℕ), K1.choose j * (N1 - K1).choose (n1 - j) := by
              rw [Finset.sum_pair (by omega)]
          _ ≤ ∑ j ∈ Finset.range (n1 + 1), K1.choose j * (N1 - K1).choose (n1 - j) :=
              Finset.sum_le_sum_of_subset hpair
      exact_mod_cast hterm

/-! ## Validation of the log-space idealization -/

/-- The loop of `logFactorial` computes `ln(n!)` exactly in real
arithmetic. -/
lemma logFactorial_eq (n : ℕ) : logFactorial n = Real.log (Nat.factorial n) := by
  induction n with
  | zero => simp [logFactorial]
  | succ m ih =>
    rcases Nat.eq_zero_or_pos m with rfl | hm
    · simp [logFactorial]
    · have h2 : 2 ≤ m + 1 := by omega
      unfold logFactorial at ih ⊢
      rw [Finset.sum_Icc_succ_top h2, ih, Nat.factorial_succ]
      have hfac : (0 : ℝ) < ((Nat.factorial m : ℕ) : ℝ) := by
        exact_mod_cast Nat.factorial_pos m
      push_cast
      rw [Real.log_mul (by positivity) hfac.ne']
      ring

/-- In exact real arithmetic, `Math.round(Math.exp(logFactorial(n) -
logFactorial(k) - logFactorial(n - k)))` — the expression computed by
`binomialCoefficient` in its generic branch — is exactly `C(n, k)`.  This is
the fact that justifies embedding that branch as the exact binomial
coefficient. -/
lemma round_exp_logFactorial (n k : ℕ) (h : k ≤ n) :
    round (Real.exp (logFactorial n - logFactorial k - logFactorial (n - k)))
      = (n.choose k : ℤ) := by
  have hn : (0 : ℝ) < ((Nat.factorial n : ℕ) : ℝ) := by exact_mod_cast Nat.factorial_pos n
  have hk : (0 : ℝ) < ((Nat.factorial k : ℕ) : ℝ) := by exact_mod_cast Nat.factorial_pos k
  have hnk : (0 : ℝ) < ((Nat.factorial (n - k) : ℕ) : ℝ) := by
    exact_mod_cast Nat.factorial_pos (n - k)
  have e : Real.exp (logFactorial n - logFactorial k - logFactorial (n - k))
      = (n.choose k : ℝ) := by
    rw [logFactorial_eq, logFactorial_eq, logFactorial_eq, Real.exp_sub, Real.exp_sub,
      Real.exp_log hn, Real.exp_log hk, Real.exp_log hnk, Nat.cast_choose ℝ h,
      div_div]
  rw [e, round_natCast]

/-! ## Chart-loop lemmas -/

/-- The accumulated list of the chart loop is the initial list followed by
the probabilities in iteration order. -/
lemma chartLoop_fst (f : ℕ → ℚ) (l : List ℕ) (init : List ℚ) (m : ℚ) :
    (l.foldl (fun acc k => (acc.1 ++ [f k], if f k > acc.2 then f k else acc.2))
        (init, m)).1 = init ++ l.map f := by
  induction l generalizing init m with
  | nil => simp
  | cons a t ih =>
    simp only [List.foldl_cons, List.map_cons]
    rw [ih]
    simp

/-- The accumulated maximum of the chart loop only depends on the scalar
accumulator. -/
lemma chartLoop_snd (f : ℕ → ℚ) (l : List ℕ) (init : List ℚ) (m : ℚ) :
    (l.foldl (fun acc k => (acc.1 ++ [f k], if f k > acc.2 then f k else acc.2))
        (init, m)).2
      = l.foldl (fun acc k => if f k > acc then f k else acc) m := by
  induction l generalizing init m with
  | nil => simp
  | cons a t ih =>
    simp only [List.foldl_cons]
    rw [ih]

lemma maxLoop_le (f : ℕ → ℚ) (l : List ℕ) (m : ℚ) :
    m ≤ l.foldl (fun acc k => if f k > acc then f k else acc) m := by
  induction l generalizing m with
  | nil => simp
  | cons a t ih =>
    simp only [List.foldl_cons]
    refine le_trans ?_ (ih (if f a > m then f a else m))
    split_ifs with h
    · exact le_of_lt h
    · exact le_refl m

lemma maxLoop_ge_mem (f : ℕ → ℚ) (l : List ℕ) (m : ℚ) :
    ∀ j ∈ l, f j ≤ l.foldl (fun acc k => if f k > acc then f k else acc) m := by
  induction l generalizing m with
  | nil => simp
  | cons a t ih =>
    intro j hj
    simp only [List.foldl_cons]
    rcases List.mem_cons.mp hj with rfl | hjt
    · refine le_trans ?_ (maxLoop_le f t (if f j > m then f j else m))
      split_ifs with h
      · exact le_refl (f j)
      · exact le_of_not_lt h
    · exact ih (if f a > m then f a else m) j hjt

lemma maxLoop_eq_init_or_mem (f : ℕ → ℚ) (l : List ℕ) (m : ℚ) :
    l.foldl (fun acc k => if f k > acc then f k else acc) m = m ∨
      ∃ j ∈ l, l.foldl (fun acc k => if f k > acc then f k else acc) m = f j := by
  induction l generalizing m with
  | nil => exact Or.inl rfl
  | cons a t ih =>
    simp only [List.foldl_cons]
    rcases ih (if f a > m then f a else m) with h | ⟨j, hj, hfj⟩
    · rw [h]
      split_ifs with hcmp
      · exact Or.inr ⟨a, List.mem_cons_self a t, rfl⟩
      · exact Or.inl rfl
    · exact Or.inr ⟨j, List.mem_cons_of_mem a hj, hfj⟩

/-! ## Validation lemmas -/

/-- The error list of `calculateAll` is empty exactly when none of the five
validation conditions fires. -/
lemma validationErrors_eq_nil_iff (d t s tg : ℤ) :
    validationErrors d t s tg = [] ↔
      ¬(d < 1 ∨ d - t * 2 < 1 ∨ s > d - t * 2 ∨ tg > d ∨ tg > d - t * 2) := by
  unfold validationErrors
  dsimp only
  push_neg
  split_ifs <;> simp_all

/-! ## Claim theorems -/

/-- C3: for every integers `N, K, n, k`, `hypergeometric` returns `0`
whenever `k < 0`, or `k > min(K, n)`, or `k < max(0, n - (N - K))`; the
definition returns via this branch before the binomial-coefficient
computation and the division. -/
theorem hypergeometric_out_of_support_eq_zero (N K n k : ℤ)
    (h : k < 0 ∨ k > min K n ∨ k < max 0 (n - (N - K))) :
    hypergeometric N K n k = 0 := by
  unfold hypergeometric
  rw [if_pos h]

theorem hypergeometric_out_of_support_eq_zero_witness :
    ((5 : ℤ) < 0 ∨ (5 : ℤ) > min 2 5 ∨ (5 : ℤ) < max 0 (5 - (10 - 2))) ∧
      hypergeometric 10 2 5 5 = 0 :=
  ⟨by decide, hypergeometric_out_of_support_eq_zero 10 2 5 5 (by decide)⟩

/-- C6: for all integers `n, k` with `0 ≤ k ≤ n`,
`binomialCoefficient(n, k) = binomialCoefficient(n, n - k)`. -/
theorem binomialCoefficient_symm (n k : ℤ) (h0 : 0 ≤ k) (hn : k ≤ n) :
    binomialCoefficient n k = binomialCoefficient n (n - k) := by
  obtain ⟨n1, rfl⟩ := Int.eq_ofNat_of_zero_le (le_trans h0 hn)
  obtain ⟨k1, rfl⟩ := Int.eq_ofNat_of_zero_le h0
  have hk1 : k1 ≤ n1 := by exact_mod_cast hn
  have hsub : ((n1 : ℤ) - (k1 : ℤ)) = ((n1 - k1 : ℕ) : ℤ) := by
    rw [Nat.cast_sub hk1]
  rw [hsub, binomialCoefficient_natCast, binomialCoefficient_natCast,
    Nat.choose_symm hk1]

theorem binomialCoefficient_symm_witness :
    ((0 : ℤ) ≤ 2 ∧ (2 : ℤ) ≤ 5) ∧
      binomialCoefficient 5 2 = binomialCoefficient 5 (5 - 2) :=
  ⟨⟨by decide, by decide⟩, binomialCoefficient_symm 5 2 (by decide) (by decide)⟩

/-- C7: for every integer `n ≥ 0`,
`binomialCoefficient(n, 0) = binomialCoefficient(n, n) = 1` exactly (through
the base-case branch, not the log computation), and for every integers
`n, k` with `k < 0` or `k > n`, `binomialCoefficient(n, k) = 0`. -/
theorem binomialCoefficient_base_cases (n k : ℤ) :
    (0 ≤ n → binomialCoefficient n 0 = 1 ∧ binomialCoefficient n n = 1) ∧
    (k < 0 ∨ k > n → binomialCoefficient n k = 0) := by
  constructor
  · intro hn
    constructor
    · unfold binomialCoefficient
      rw [if_neg (by omega), if_pos (Or.inl rfl)]
    · unfold binomialCoefficient
      rw [if_neg (by omega), if_pos (Or.inr rfl)]
  · intro h
    unfold binomialCoefficient
    rw [if_pos h]

theorem binomialCoefficient_base_cases_witness :
    ((0 : ℤ) ≤ 4 ∧ binomialCoefficient 4 0 = 1 ∧ binomialCoefficient 4 4 = 1) ∧
      (((-1 : ℤ) < 0 ∨ (-1 : ℤ) > 4) ∧ binomialCoefficient 4 (-1) = 0) :=
  ⟨⟨by decide, (binomialCoefficient_base_cases 4 (-1)).1 (by decide)⟩,
   ⟨by decide, (binomialCoefficient_base_cases 4 (-1)).2 (by decide)⟩⟩

/-- C10: whenever the support check of `hypergeometric` passes,
`0 ≤ n ≤ N` follows and the denominator `binomialCoefficient(N, n)` is
nonzero, so the `denominator === 0` branch can only return `0` vacuously. -/
theorem support_implies_denominator_nonzero (N K n k : ℤ)
    (h : ¬(k < 0 ∨ k > min K n ∨ k < max 0 (n - (N - K)))) :
    0 ≤ n ∧ n ≤ N ∧ binomialCoefficient N n ≠ 0 := by
  obtain ⟨hk0, hkK, hkn, hnk, hn0, hnN, hK0, hKN⟩ := support_bounds h
  refine ⟨hn0, hnN, ?_⟩
  obtain ⟨N1, rfl⟩ := Int.eq_ofNat_of_zero_le (le_trans hn0 hnN)
  obtain ⟨n1, rfl⟩ := Int.eq_ofNat_of_zero_le hn0
  rw [binomialCoefficient_natCast]
  have hpos : 0 < N1.choose n1 := Nat.choose_pos (by exact_mod_cast hnN)
  exact_mod_cast hpos.ne'

theorem support_implies_denominator_nonzero_witness :
    ¬((1 : ℤ) < 0 ∨ (1 : ℤ) > min 2 5 ∨ (1 : ℤ) < max 0 (5 - (10 - 2))) ∧
      ((0 : ℤ) ≤ 5 ∧ (5 : ℤ) ≤ 10 ∧ binomialCoefficient 10 5 ≠ 0) :=
  ⟨by decide, support_implies_denominator_nonzero 10 2 5 1 (by decide)⟩

/-- C2: for every valid triple `(N, K, n)` with `0 ≤ K ≤ N` and `0 ≤ n ≤ N`,
the sum of `hypergeometric(N, K, n, k)` over `k = 0 .. min(K, n)` equals `1`
within `1e-6` (in the exact-arithmetic embedding the sum is exactly `1`). -/
theorem hypergeometric_sum_eq_one (N K n : ℤ) (hK0 : 0 ≤ K) (hKN : K ≤ N)
    (hn0 : 0 ≤ n) (hnN : n ≤ N) :
    |(∑ k ∈ Finset.range ((min K n).toNat + 1),
        hypergeometric N K n (k : ℤ)) - 1| ≤ 1 / 1000000 := by
  obtain ⟨N1, rfl⟩ := Int.eq_ofNat_of_zero_le (le_trans hK0 hKN)
  obtain ⟨K1, rfl⟩ := Int.eq_ofNat_of_zero_le hK0
  obtain ⟨n1, rfl⟩ := Int.eq_ofNat_of_zero_le hn0
  have hK1N : K1 ≤ N1 := by exact_mod_cast hKN
  have hn1N : n1 ≤ N1 := by exact_mod_cast hnN
  have hmin : (min (K1 : ℤ) (n1 : ℤ)).toNat = min K1 n1 := by
    rw [← Nat.cast_min]
    exact Int.toNat_natCast _
  rw [hmin, sum_hypergeometric_nat N1 K1 n1 hK1N hn1N]
  norm_num

theorem hypergeometric_sum_eq_one_witness :
    ((0 : ℤ) ≤ 2 ∧ (2 : ℤ) ≤ 10 ∧ (0 : ℤ) ≤ 5 ∧ (5 : ℤ) ≤ 10) ∧
      |(∑ k ∈ Finset.range ((min (2 : ℤ) 5).toNat + 1),
          hypergeometric 10 2 5 (k : ℤ)) - 1| ≤ 1 / 1000000 :=
  ⟨⟨by decide, by decide, by decide, by decide⟩,
   hypergeometric_sum_eq_one 10 2 5 (by decide) (by decide) (by decide) (by decide)⟩

/-- C4: for every integer inputs, valid or not, `hypergeometric` returns a
rational in `[0, 1]` (the embedding is total, so no NaN/Infinity/exception
can arise), and each of the five summary statistics computed from
`(N, targets, sampleSize)` lies in `[0, 1]`. -/
theorem hypergeometric_and_stats_in_unit_interval (N K n k : ℤ) :
    (0 ≤ hypergeometric N K n k ∧ hypergeometric N K n k ≤ 1) ∧
    (0 ≤ (computeSummaryStatistics N K n).whiff ∧
      (computeSummaryStatistics N K n).whiff ≤ 1) ∧
    (0 ≤ (computeSummaryStatistics N K n).exactlyOne ∧
      (computeSummaryStatistics N K n).exactlyOne ≤ 1) ∧
    (0 ≤ (computeSummaryStatistics N K n).atLeastOne ∧
      (computeSummaryStatistics N K n).atLeastOne ≤ 1) ∧
    (0 ≤ (computeSummaryStatistics N K n).twoOrMore ∧
      (computeSummaryStatistics N K n).twoOrMore ≤ 1) ∧
    (0 ≤ (computeSummaryStatistics N K n).whiffTwice ∧
      (computeSummaryStatistics N K n).whiffTwice ≤ 1) := by
  have h0 := hypergeometric_nonneg N K n 0
  have h1 := hypergeometric_nonneg N K n 1
  have u0 := hypergeometric_le_one N K n 0
  have u1 := hypergeometric_le_one N K n 1
  have hsum := hyp_zero_add_hyp_one_le_one N K n
  refine ⟨⟨hypergeometric_nonneg N K n k, hypergeometric_le_one N K n k⟩,
    ?_, ?_, ?_, ?_, ?_⟩ <;> simp only [computeSummaryStatistics]
  · exact ⟨h0, u0⟩
  · exact ⟨h1, u1⟩
  · constructor <;> linarith
  · constructor <;> linarith
  · exact ⟨mul_nonneg h0 h0, by nlinarith⟩

/-- C5: for every input passing the collaborator's validation, the summary
statistics satisfy `whiff = PMF(0)`, `exactlyOne = PMF(1)`,
`atLeastOne + whiff = 1` within `1e-9`, `twoOrMore = atLeastOne - exactlyOne`
within `1e-9`, and `whiffTwice = whiff²` exactly. -/
theorem calculateAll_stats_relations (deckSize turn sampleSize targets : ℤ)
    (h : validationErrors deckSize turn sampleSize targets = []) :
    (computeSummaryStatistics (deckSize - turn * 2) targets sampleSize).whiff
        = hypergeometric (deckSize - turn * 2) targets sampleSize 0 ∧
    (computeSummaryStatistics (deckSize - turn * 2) targets sampleSize).exactlyOne
        = hypergeometric (deckSize - turn * 2) targets sampleSize 1 ∧
    |(computeSummaryStatistics (deckSize - turn * 2) targets sampleSize).atLeastOne
        + (computeSummaryStatistics (deckSize - turn * 2) targets sampleSize).whiff
        - 1| ≤ 1 / 1000000000 ∧
    |(computeSummaryStatistics (deckSize - turn * 2) targets sampleSize).twoOrMore
        - ((computeSummaryStatistics (deckSize - turn * 2) targets sampleSize).atLeastOne
          - (computeSummaryStatistics (deckSize - turn * 2) targets sampleSize).exactlyOne)|
        ≤ 1 / 1000000000 ∧
    (computeSummaryStatistics (deckSize - turn * 2) targets sampleSize).whiffTwice
        = (computeSummaryStatistics (deckSize - turn * 2) targets sampleSize).whiff
          * (computeSummaryStatistics (deckSize - turn * 2) targets sampleSize).whiff := by
  refine ⟨rfl, rfl, ?_, ?_, rfl⟩
  · have hz : (computeSummaryStatistics (deckSize - turn * 2) targets sampleSize).atLeastOne
        + (computeSummaryStatistics (deckSize - turn * 2) targets sampleSize).whiff - 1
        = 0 := by
      simp only [computeSummaryStatistics]
      ring
    rw [hz]
    norm_num
  · have hz : (computeSummaryStatistics (deckSize - turn * 2) targets sampleSize).twoOrMore
        - ((computeSummaryStatistics (deckSize - turn * 2) targets sampleSize).atLeastOne
          - (computeSummaryStatistics (deckSize - turn * 2) targets sampleSize).exactlyOne)
        = 0 := by
      simp only [computeSummaryStatistics]
      ring
    rw [hz]
    norm_num

theorem calculateAll_stats_relations_witness :
    validationErrors 40 0 5 3 = [] ∧
      (computeSummaryStatistics (40 - 0 * 2) 3 5).whiff
        = hypergeometric (40 - 0 * 2) 3 5 0 :=
  ⟨by decide, (calculateAll_stats_relations 40 0 5 3 (by decide)).1⟩

/-- C8: for fixed `(N, K, n)` the chart loop produces exactly the sequence
`hypergeometric(N, K, n, k)` for `k = 0 .. min(K, n)` in increasing `k`
order (`min(K, n) + 1` elements when `min(K, n) ≥ 0`), and the tracked
maximum is the largest value of the sequence, `0` for an empty sequence. -/
theorem computeDistribution_spec (N K n : ℤ) :
    (computeDistribution N K n).1
        = (List.range ((min K n + 1).toNat)).map (fun j : ℕ => hypergeometric N K n (j : ℤ)) ∧
    (0 ≤ min K n → (computeDistribution N K n).1.length = (min K n).toNat + 1) ∧
    (∀ p ∈ (computeDistribution N K n).1, p ≤ (computeDistribution N K n).2) ∧
    ((computeDistribution N K n).1 = [] → (computeDistribution N K n).2 = 0) ∧
    ((computeDistribution N K n).1 ≠ [] →
        (computeDistribution N K n).2 ∈ (computeDistribution N K n).1) := by
  have hfst : (computeDistribution N K n).1
      = (List.range ((min K n + 1).toNat)).map (fun j : ℕ => hypergeometric N K n (j : ℤ)) := by
    have h := chartLoop_fst (fun j : ℕ => hypergeometric N K n (j : ℤ))
      (List.range ((min K n + 1).toNat)) [] 0
    rw [List.nil_append] at h
    unfold computeDistribution
    exact h
  have hsnd : (computeDistribution N K n).2
      = (List.range ((min K n + 1).toNat)).foldl
          (fun acc (j : ℕ) =>
            if hypergeometric N K n (j : ℤ) > acc then hypergeometric N K n (j : ℤ)
            else acc) 0 := by
    unfold computeDistribution
    exact chartLoop_snd (fun j : ℕ => hypergeometric N K n (j : ℤ))
      (List.range ((min K n + 1).toNat)) [] 0
  refine ⟨hfst, ?_, ?_, ?_, ?_⟩
  · intro hmin
    rw [hfst, List.length_map, List.length_range]
    omega
  · intro p hp
    rw [hfst] at hp
    obtain ⟨j, hj, rfl⟩ := List.mem_map.mp hp
    rw [hsnd]
    exact maxLoop_ge_mem (fun i : ℕ => hypergeometric N K n (i : ℤ)) _ 0 j hj
  · intro hemp
    rw [hfst] at hemp
    have hl : List.range ((min K n + 1).toNat) = [] := by
      exact List.map_eq_nil_iff.mp hemp
    rw [hsnd, hl]
    rfl
  · intro hne
    rw [hfst] at hne ⊢
    have hl : List.range ((min K n + 1).toNat) ≠ [] := by
      intro hcon
      exact hne (by rw [hcon]; rfl)
    rcases maxLoop_eq_init_or_mem (fun i : ℕ => hypergeometric N K n (i : ℤ))
        (List.range ((min K n + 1).toNat)) 0 with hz | ⟨j, hj, hfj⟩
    · obtain ⟨j0, hj0⟩ := List.exists_mem_of_ne_nil _ hl
      have hle : hypergeometric N K n (j0 : ℤ)
          ≤ (computeDistribution N K n).2 := by
        rw [hsnd]
        exact maxLoop_ge_mem (fun i : ℕ => hypergeometric N K n (i : ℤ)) _ 0 j0 hj0
      have hge := hypergeometric_nonneg N K n (j0 : ℤ)
      have hzero : hypergeometric N K n (j0 : ℤ) = 0 := by
        rw [hsnd, hz] at hle
        exact le_antisymm hle hge
      have : (computeDistribution N K n).2 = hypergeometric N K n (j0 : ℤ) := by
        rw [hsnd, hz, hzero]
      rw [this]
      exact List.mem_map.mpr ⟨j0, hj0, rfl⟩
    · have : (computeDistribution N K n).2 = hypergeometric N K n (j : ℤ) := by
        rw [hsnd, hfj]
      rw [this]
      exact List.mem_map.mpr ⟨j, hj, rfl⟩

theorem computeDistribution_spec_witness :
    (0 : ℤ) ≤ min 2 5 ∧ (computeDistribution 10 2 5).1.length = (min (2 : ℤ) 5).toNat + 1 :=
  ⟨by decide, (computeDistribution_spec 10 2 5).2.1 (by decide)⟩

/-- C9: `calculateAll` computes the effective population as
`N = deckSize - 2 * turn`, and when any of the five validation conditions
fails it returns without invoking the probability core; otherwise it calls
the core on `(N, targets, sampleSize)`. -/
theorem calculateAll_guard (d t s tg : ℤ) :
    ((d < 1 ∨ d - t * 2 < 1 ∨ s > d - t * 2 ∨ tg > d ∨ tg > d - t * 2) →
        calculateAll d t s tg = none) ∧
    (¬(d < 1 ∨ d - t * 2 < 1 ∨ s > d - t * 2 ∨ tg > d ∨ tg > d - t * 2) →
        calculateAll d t s tg
          = some (computeSummaryStatistics (d - t * 2) tg s,
                  computeDistribution (d - t * 2) tg s)) := by
  constructor
  · intro h
    have hne : validationErrors d t s tg ≠ [] := by
      rw [Ne, validationErrors_eq_nil_iff]
      exact not_not_intro h
    unfold calculateAll
    dsimp only
    rw [if_neg hne]
  · intro h
    have he : validationErrors d t s tg = [] :=
      (validationErrors_eq_nil_iff d t s tg).mpr h
    unfold calculateAll
    dsimp only
    rw [if_pos he]

theorem calculateAll_guard_witness :
    ((0 : ℤ) < 1 ∨ (0 : ℤ) - 0 * 2 < 1 ∨ (0 : ℤ) > 0 - 0 * 2 ∨ (0 : ℤ) > 0 ∨
        (0 : ℤ) > 0 - 0 * 2) ∧
      calculateAll 0 0 0 0 = none :=
  ⟨by decide, (calculateAll_guard 0 0 0 0).1 (by decide)⟩

/-- C1 (counterexample): the claim says `hypergeometric(48, 3, 7, 0)` is
approximately `0.5612`; the code returns exactly `2665/4324 ≈ 0.6163`, which
is more than `0.05` away from `0.5612`. -/
theorem hypergeometric_scenario1_counterexample :
    hypergeometric 48 3 7 0 = 2665 / 4324 ∧
      1 / 20 < |hypergeometric 48 3 7 0 - 5612 / 10000| := by
  have e1 : Int.toNat 45 = 45 := rfl
  have e2 : Int.toNat 48 = 48 := rfl
  have e3 : Int.toNat 7 = 7 := rfl
  have h1 : (Int.toNat 45).choose (Int.toNat 7) = 45379620 := by
    rw [e1, e3, Nat.choose_eq_descFactorial_div_factorial]
    decide
  have h2 : (Int.toNat 48).choose (Int.toNat 7) = 73629072 := by
    rw [e2, e3, Nat.choose_eq_descFactorial_div_factorial]
    decide
  have hval : hypergeometric 48 3 7 0 = 2665 / 4324 := by
    norm_num [hypergeometric, binomialCoefficient, h1, h2]
  refine ⟨hval, ?_⟩
  rw [hval]
  have habs : (0 : ℚ) ≤ 2665 / 4324 - 5612 / 10000 := by norm_num
  rw [abs_of_nonneg habs]
  norm_num

/-- C1 (amended): for the inputs `N = 48`, `K = 3`, `n = 7`, `k = 0`,
`hypergeometric` returns `2665/4324`, which is approximately `0.6163`
(within `1e-4`). -/
theorem hypergeometric_scenario1_amended :
    hypergeometric 48 3 7 0 = 2665 / 4324 ∧
      |hypergeometric 48 3 7 0 - 6163 / 10000| < 1 / 10000 := by
  have e1 : Int.toNat 45 = 45 := rfl
  have e2 : Int.toNat 48 = 48 := rfl
  have e3 : Int.toNat 7 = 7 := rfl
  have h1 : (Int.toNat 45).choose (Int.toNat 7) = 45379620 := by
    rw [e1, e3, Nat.choose_eq_descFactorial_div_factorial]
    decide
  have h2 : (Int.toNat 48).choose (Int.toNat 7) = 73629072 := by
    rw [e2, e3, Nat.choose_eq_descFactorial_div_factorial]
    decide
  have hval : hypergeometric 48 3 7 0 = 2665 / 4324 := by
    norm_num [hypergeometric, binomialCoefficient, h1, h2]
  refine ⟨hval, ?_⟩
  rw [hval]
  have habs : (0 : ℚ) ≤ 2665 / 4324 - 6163 / 10000 := by norm_num
  rw [abs_of_nonneg habs]
  norm_num

end DeckHelper
